import Mathlib

/-
Shallow embedding of src/src/scheduler.py (stroll-plus).

The Python scheduler keeps a hand-rolled singly linked list of task nodes
(self.head), a tri-valued flag self.active (False, True, or the string
"TERMINATED"), and self.timer, a reference to the most recently created
due-task threading.Timer. We model:
  - the node chain as a Lean list of Entry (time, an action identifier,
    and a flag saying whether the action raises when invoked);
  - self.active as the inductive ActiveFlag (off / on / terminated),
    with truthy capturing Python truthiness (the nonempty string
    "TERMINATED" is truthy);
  - every threading.Timer ever constructed as a Timer record in the
    state (tid, kind, absolute target instant, and started / cancelled /
    fired flags); self.timer is timerRef, an optional tid;
  - invocation of user actions as an append of the action identifier to
    a log list;
  - a raised Python exception as a `some err` second component; the
    first component is the scheduler state at the moment of the raise
    (Python mutations made before the raise persist).
Timestamps and durations are integers; threading.Timer(interval, f) made
at instant now fires at now + interval, and a due-task timer armed by
_wait_for_head therefore targets exactly the head entry's time.
-/

namespace Stroll

/-- Entry models the value dict of a TaskNode: a due time and the action
(abstracted to a numeric identifier plus a flag telling whether invoking
it raises an exception). -/
structure Entry where
  time : Int
  aid : Nat
  raisesExc : Bool
deriving DecidableEq, Repr

/-- TimerKind records which callback a threading.Timer was built with:
the wrapped action of a task entry (capturing that entry's action), or
the revert lambdas of pause / resume. -/
inductive TimerKind where
  | dueTask (aid : Nat) (raisesExc : Bool)
  | revertResume
  | revertPause
deriving DecidableEq, Repr

/-- Timer models one threading.Timer object: identifier, callback kind,
absolute instant at which it would fire, and whether start() was called,
cancel() was called, and whether it has already run. -/
structure Timer where
  tid : Nat
  kind : TimerKind
  target : Int
  started : Bool
  cancelled : Bool
  fired : Bool
deriving DecidableEq, Repr

/-- ActiveFlag models self.active, which Python holds as False, True, or
the string "TERMINATED". -/
inductive ActiveFlag where
  | off
  | on
  | terminated
deriving DecidableEq, Repr

/-- Python truthiness of self.active: False is falsy; True and the
nonempty string "TERMINATED" are truthy. -/
def ActiveFlag.truthy : ActiveFlag → Bool
  | .off => false
  | .on => true
  | .terminated => true

/-- Err models the exceptions the scheduler code can raise:
the explicit terminated guard, the AttributeError from dt.date.now() in
start (datetime.date has no now method), the AttributeError from reading
.next on None in the wrapped action, and an exception raised by a
user-supplied action. -/
inductive Err where
  | terminated
  | dateNow
  | noneNext
  | actionRaised (aid : Nat)
deriving DecidableEq, Repr

/-- Sched models the scheduler object together with the timers it has
created and the log of invoked actions. -/
structure Sched where
  head : List Entry
  active : ActiveFlag
  timerRef : Option Nat
  timers : List Timer
  nextTid : Nat
  log : List Nat
deriving DecidableEq, Repr

/-- The object produced by Scheduler.__init__: no tasks, active False,
no timer. -/
def init : Sched := ⟨[], .off, none, [], 0, []⟩

/-- The insertion scan of add_task: walk the chain and return the index
of the first node at which the branch `afterNode and beforeNextNode`
fires (time strictly greater than the node's time, and either the node
is the tail or time strictly less than the next node's time); none if
the walk falls off the end without that branch firing. -/
def findAfter (T : Int) : List Entry → Option Nat
  | [] => none
  | [n] => if n.time < T then some 0 else none
  | n :: m :: rest =>
      if n.time < T ∧ T < m.time then some 0
      else (findAfter T (m :: rest)).map (· + 1)

/-- The full effect of the add_task insertion loop on the chain, for a
new node t with time T. Returns the new chain (as read from self.head)
and whether the new node ended up being self.head (Python object
comparison task == self.head).

Mirrors the Python walk: if the list is empty the new node becomes the
head. Otherwise the head-insert branch (isHead and not afterNode) can
fire only at the first node, exactly when T is not strictly greater than
the head's time; it sets self.head to t with t.next the old head and the
walk continues without a break. The after-insert branch then fires at
the first index j given by findAfter and breaks. When both fire (only
possible on an unsorted chain), the after-insert overwrites t.next, so
the chain read from self.head is t followed by the nodes after index j;
the skipped prefix becomes unreachable. When neither fires the new node
is silently lost. -/
def addInsert (T : Int) (t : Entry) : List Entry → List Entry × Bool
  | [] => ([t], true)
  | n0 :: tl =>
      match findAfter T (n0 :: tl) with
      | some j =>
          if n0.time < T then
            ((n0 :: tl).take (j+1) ++ t :: (n0 :: tl).drop (j+1), false)
          else
            (t :: (n0 :: tl).drop (j+1), true)
      | none =>
          if n0.time < T then (n0 :: tl, false) else (t :: n0 :: tl, true)

/-- Timer.cancel() on the timer with identifier tid. Cancelling a timer
that already ran is a safe no-op (the fired flag stays set). -/
def cancelTimer (s : Sched) (tid : Nat) : Sched :=
  { s with timers :=
      s.timers.map (fun t => if t.tid = tid then { t with cancelled := true } else t) }

/-- Scheduler._wait_for_head: if the chain is nonempty, construct a
threading.Timer for the head entry (interval head.time - now, so it
fires at the absolute instant head.time), store it in self.timer, and
start it. The timer captures the head entry's action. -/
def waitForHead (s : Sched) : Sched :=
  match s.head with
  | [] => s
  | e :: _ =>
      let tmr : Timer := ⟨s.nextTid, .dueTask e.aid e.raisesExc, e.time, true, false, false⟩
      { s with timers := s.timers ++ [tmr], timerRef := some s.nextTid,
               nextTid := s.nextTid + 1 }

/-- Scheduler.add_task(time, action): raise if terminated; insert the
new node by the chain walk; then, if the new node became self.head and
self.timer is not None and self.active is truthy, cancel self.timer and
re-arm via _wait_for_head. -/
def add_task (s : Sched) (T : Int) (aid : Nat) (raisesExc : Bool) : Sched × Option Err :=
  if s.active = .terminated then (s, some .terminated) else
  let p := addInsert T ⟨T, aid, raisesExc⟩ s.head
  let s1 : Sched := { s with head := p.1 }
  if p.2 then
    match s1.timerRef with
    | some tid =>
        if s1.active.truthy then (waitForHead (cancelTimer s1 tid), none)
        else (s1, none)
    | none => (s1, none)
  else (s1, none)

/-- Scheduler.pause(timeToLast = -1): raise if terminated; set
self.active = False; if timeToLast >= 0, cancel self.timer when it is
not None and construct threading.Timer(timeToLast, resume) — which the
code never starts and never stores. -/
def pause (s : Sched) (timeToLast : Int) (now : Int) : Sched × Option Err :=
  if s.active = .terminated then (s, some .terminated) else
  let s1 : Sched := { s with active := .off }
  if 0 ≤ timeToLast then
    let s2 := match s1.timerRef with
              | some tid => cancelTimer s1 tid
              | none => s1
    let tmr : Timer := ⟨s2.nextTid, .revertResume, now + timeToLast, false, false, false⟩
    ({ s2 with timers := s2.timers ++ [tmr], nextTid := s2.nextTid + 1 }, none)
  else (s1, none)

/-- Scheduler.resume(timeToLast = -1): raise if terminated; set
self.active = True; call _wait_for_head (arming a fresh timer for the
head without cancelling any previous one); if timeToLast >= 0,
construct threading.Timer(timeToLast, pause) — never started, never
stored. -/
def resume (s : Sched) (timeToLast : Int) (now : Int) : Sched × Option Err :=
  if s.active = .terminated then (s, some .terminated) else
  let s1 := waitForHead { s with active := .on }
  if 0 ≤ timeToLast then
    let tmr : Timer := ⟨s1.nextTid, .revertPause, now + timeToLast, false, false, false⟩
    ({ s1 with timers := s1.timers ++ [tmr], nextTid := s1.nextTid + 1 }, none)
  else (s1, none)

/-- Scheduler.start(auto_stop = False): raise if terminated; call
resume(); if auto_stop is False, evaluate dt.date.now() + timedelta —
but datetime.date has no classmethod now, so an AttributeError is
raised before add_task is reached; the mutations made by resume
persist. -/
def start (s : Sched) (auto_stop : Bool) (now : Int) : Sched × Option Err :=
  if s.active = .terminated then (s, some .terminated) else
  match resume s (-1) now with
  | (s1, some e) => (s1, some e)
  | (s1, none) =>
      if auto_stop = false then (s1, some .dateNow)
      else (s1, none)

/-- Scheduler.terminate(): raise if terminated; call pause() (default
argument -1, which cancels nothing); detach the head; set self.active
to the string "TERMINATED". -/
def terminate (s : Sched) (now : Int) : Sched × Option Err :=
  if s.active = .terminated then (s, some .terminated) else
  match pause s (-1) now with
  | (s1, some e) => (s1, some e)
  | (s1, none) => ({ s1 with head := [], active := .terminated }, none)

/-- A timer can still run exactly when it was started and neither
cancelled nor already run. -/
def timerArmed (t : Timer) : Bool := t.started && !t.cancelled && !t.fired

/-- Look up a timer object by identifier. -/
def findTimer (s : Sched) (tid : Nat) : Option Timer :=
  s.timers.find? (fun t => t.tid = tid)

/-- Mark the timer with identifier tid as having run. -/
def markFired (s : Sched) (tid : Nat) : Sched :=
  { s with timers :=
      s.timers.map (fun t => if t.tid = tid then { t with fired := true } else t) }

/-- The firing of the timer with identifier tid at instant now. An
unstarted, cancelled or already-fired timer does nothing. A due-task
timer runs the wrapped closure from _wrap_action: invoke the captured
action (logged); if it raises, the exception propagates on the timer
thread and nothing else happens; otherwise execute
self.head = self.head.next (an AttributeError if self.head is None),
then, if self.active is truthy, call _wait_for_head. A revert timer
runs the corresponding lambda. -/
def fireTimer (s : Sched) (tid : Nat) (now : Int) : Sched × Option Err :=
  match findTimer s tid with
  | none => (s, none)
  | some t =>
      if timerArmed t then
        let s1 := markFired s tid
        match t.kind with
        | .dueTask aid raisesExc =>
            let s2 := { s1 with log := s1.log ++ [aid] }
            if raisesExc then (s2, some (.actionRaised aid))
            else
              match s2.head with
              | [] => (s2, some .noneNext)
              | _ :: rest =>
                  let s3 := { s2 with head := rest }
                  if s3.active.truthy then (waitForHead s3, none) else (s3, none)
        | .revertResume => resume s1 (-1) now
        | .revertPause => pause s1 (-1) now
      else (s, none)

/-- The chain is sorted ascending by time (adjacent comparison). -/
def sortedByTime : List Entry → Bool
  | [] => true
  | [_] => true
  | a :: b :: l => decide (a.time ≤ b.time) && sortedByTime (b :: l)

/-- Run a sequence of add_task calls (all with non-raising actions),
ignoring the returned errors, as a caller issuing one call after
another would. -/
def runAdds : Sched → List (Int × Nat) → Sched
  | s, [] => s
  | s, (T, aid) :: rest => runAdds (add_task s T aid false).1 rest

/-- Unfolding equation for sortedByTime on two or more entries. -/
lemma sorted_cons_cons (a b : Entry) (l : List Entry) :
    sortedByTime (a :: b :: l) = (decide (a.time ≤ b.time) && sortedByTime (b :: l)) := rfl

/-- The tail of a sorted chain is sorted. -/
lemma sorted_of_cons {a : Entry} {l : List Entry} (h : sortedByTime (a :: l) = true) :
    sortedByTime l = true := by
  cases l with
  | nil => rfl
  | cons b r =>
      rw [sorted_cons_cons, Bool.and_eq_true] at h
      exact h.2

/-- In a sorted chain the head's time bounds every later entry's time. -/
lemma sorted_head_le {a : Entry} {l : List Entry} (h : sortedByTime (a :: l) = true)
    {b : Entry} (hb : b ∈ l) : a.time ≤ b.time := by
  induction l generalizing a with
  | nil => cases hb
  | cons c r ih =>
      rw [sorted_cons_cons, Bool.and_eq_true, decide_eq_true_eq] at h
      rcases List.mem_cons.mp hb with rfl | hb2
      · exact h.1
      · exact le_trans h.1 (ih h.2 hb2)

/-- Prepending an entry whose time bounds the whole chain keeps it
sorted. -/
lemma sorted_cons_of_forall {l : List Entry} {x : Entry} (hl : sortedByTime l = true)
    (hx : ∀ b ∈ l, x.time ≤ b.time) : sortedByTime (x :: l) = true := by
  cases l with
  | nil => rfl
  | cons b r =>
      rw [sorted_cons_cons, Bool.and_eq_true, decide_eq_true_eq]
      exact ⟨hx b (List.mem_cons_self b r), hl⟩

/-- Dropping a prefix of a sorted chain leaves a sorted chain. -/
lemma sorted_drop : ∀ (k : Nat) (l : List Entry), sortedByTime l = true →
    sortedByTime (l.drop k) = true := by
  intro k
  induction k with
  | zero => intro l h; exact h
  | succ k2 ih =>
      intro l h
      cases l with
      | nil => rfl
      | cons a tl => exact ih tl (sorted_of_cons h)

/-- Membership in a dropped suffix implies membership in the chain. -/
lemma mem_of_drop {b : Entry} : ∀ {k : Nat} {l : List Entry}, b ∈ l.drop k → b ∈ l := by
  intro k
  induction k with
  | zero => intro l h; exact h
  | succ k2 ih =>
      intro l h
      cases l with
      | nil => cases h
      | cons a tl => exact List.mem_cons_of_mem a (ih h)

/-- What a successful insertion scan means: at the found index the node
time is strictly below the new time, and the next node (if any) has
time strictly above it. -/
lemma findAfter_some_spec {T : Int} : ∀ {l : List Entry} {j : Nat}, findAfter T l = some j →
    ∃ a rest, l.drop j = a :: rest ∧ a.time < T ∧
      (rest = [] ∨ ∃ b rest2, rest = b :: rest2 ∧ T < b.time) := by
  intro l
  induction l with
  | nil => intro j h; exact Option.noConfusion h
  | cons n tl ih =>
      intro j h
      cases tl with
      | nil =>
          by_cases hn : n.time < T
          · simp only [findAfter, if_pos hn, Option.some.injEq] at h
            subst h
            exact ⟨n, [], rfl, hn, Or.inl rfl⟩
          · simp only [findAfter, if_neg hn] at h
            cases h
      | cons m r =>
          by_cases hc : n.time < T ∧ T < m.time
          · simp only [findAfter, if_pos hc, Option.some.injEq] at h
            subst h
            exact ⟨n, m :: r, rfl, hc.1, Or.inr ⟨m, r, rfl, hc.2⟩⟩
          · simp only [findAfter, if_neg hc] at h
            cases hm : findAfter T (m :: r) with
            | none => rw [hm] at h; cases h
            | some j2 =>
                rw [hm] at h
                simp only [Option.map_some', Option.some.injEq] at h
                subst h
                obtain ⟨a, rest, hdrop, hlt, hnext⟩ := ih hm
                exact ⟨a, rest, by rw [List.drop_succ_cons]; exact hdrop, hlt, hnext⟩

/-- On a sorted chain, if the new time already occurs in the chain, or
bounds the whole chain from below, the after-insert branch never fires
and the scan falls off the end. -/
lemma findAfter_none_of {T : Int} : ∀ {l : List Entry}, sortedByTime l = true →
    ((∃ e ∈ l, e.time = T) ∨ (∀ e ∈ l, T ≤ e.time)) → findAfter T l = none := by
  intro l
  induction l with
  | nil => intro _ _; rfl
  | cons n tl ih =>
      intro hs hd
      cases tl with
      | nil =>
          have hnot : ¬ n.time < T := by
            rcases hd with ⟨e, he, heT⟩ | hall
            · have : e = n := by simpa using he
              subst this
              rw [heT]
              exact lt_irrefl T
            · exact not_lt.mpr (hall n (List.mem_cons_self n []))
          simp [findAfter, hnot]
      | cons m r =>
          have hcond : ¬ (n.time < T ∧ T < m.time) := by
            rcases hd with ⟨e, he, heT⟩ | hall
            · rcases List.mem_cons.mp he with rfl | he2
              · intro hc; rw [heT] at hc; exact lt_irrefl T hc.1
              · intro hc
                have hme : m.time ≤ e.time := by
                  rcases List.mem_cons.mp he2 with rfl | he3
                  · exact le_refl _
                  · exact sorted_head_le (sorted_of_cons hs) he3
                rw [heT] at hme
                exact absurd hc.2 (not_lt.mpr hme)
            · intro hc
              exact absurd hc.1 (not_lt.mpr (hall n (List.mem_cons_self n (m :: r))))
          have hrec : findAfter T (m :: r) = none := by
            apply ih (sorted_of_cons hs)
            rcases hd with ⟨e, he, heT⟩ | hall
            · rcases List.mem_cons.mp he with rfl | he2
              · right
                intro b hb
                rw [← heT]
                exact sorted_head_le hs hb
              · exact Or.inl ⟨e, he2, heT⟩
            · exact Or.inr (fun b hb => hall b (List.mem_cons_of_mem n hb))
          simp [findAfter, hcond, hrec]

/-- Inserting the new node right after the index found by the scan
keeps the chain sorted. -/
lemma insertAt_sorted {T : Int} {t : Entry} (ht : t.time = T) :
    ∀ {l : List Entry} {j : Nat}, sortedByTime l = true → findAfter T l = some j →
    sortedByTime (l.take (j+1) ++ t :: l.drop (j+1)) = true := by
  intro l
  induction l with
  | nil => intro j _ h; exact Option.noConfusion h
  | cons n tl ih =>
      intro j hs h
      cases tl with
      | nil =>
          by_cases hn : n.time < T
          · simp only [findAfter, if_pos hn, Option.some.injEq] at h
            subst h
            show sortedByTime ([n].take 1 ++ t :: [n].drop 1) = true
            simp only [List.take, List.drop, List.cons_append, List.nil_append]
            rw [sorted_cons_cons, Bool.and_eq_true, decide_eq_true_eq]
            exact ⟨ht ▸ le_of_lt hn, rfl⟩
          · simp only [findAfter, if_neg hn] at h
            cases h
      | cons m r =>
          by_cases hc : n.time < T ∧ T < m.time
          · simp only [findAfter, if_pos hc, Option.some.injEq] at h
            subst h
            show sortedByTime ((n :: m :: r).take 1 ++ t :: (n :: m :: r).drop 1) = true
            simp only [List.take, List.drop, List.cons_append, List.nil_append]
            rw [sorted_cons_cons, Bool.and_eq_true, decide_eq_true_eq]
            refine ⟨ht ▸ le_of_lt hc.1, ?_⟩
            rw [sorted_cons_cons, Bool.and_eq_true, decide_eq_true_eq]
            exact ⟨ht ▸ le_of_lt hc.2, sorted_of_cons hs⟩
          · simp only [findAfter, if_neg hc] at h
            cases hm : findAfter T (m :: r) with
            | none => rw [hm] at h; cases h
            | some j2 =>
                rw [hm] at h
                simp only [Option.map_some', Option.some.injEq] at h
                subst h
                have hinner := ih (sorted_of_cons hs) hm
                have hnm : n.time ≤ m.time := by
                  rw [sorted_cons_cons, Bool.and_eq_true, decide_eq_true_eq] at hs
                  exact hs.1
                rw [List.take_succ_cons, List.drop_succ_cons, List.cons_append]
                rw [List.take_succ_cons, List.cons_append] at hinner ⊢
                rw [sorted_cons_cons, Bool.and_eq_true, decide_eq_true_eq]
                exact ⟨hnm, hinner⟩

/-- The insertion step of add_task preserves sortedness of the chain. -/
lemma addInsert_sorted {T : Int} {t : Entry} (ht : t.time = T) {l : List Entry}
    (hs : sortedByTime l = true) : sortedByTime (addInsert T t l).1 = true := by
  cases l with
  | nil => rfl
  | cons n0 tl =>
      by_cases hn : n0.time < T
      · cases hfa : findAfter T (n0 :: tl) with
        | none => simp only [addInsert, hfa, if_pos hn]; exact hs
        | some j =>
            simp only [addInsert, hfa, if_pos hn]
            exact insertAt_sorted ht hs hfa
      · have hall : ∀ b ∈ n0 :: tl, T ≤ b.time := by
          intro b hb
          rcases List.mem_cons.mp hb with rfl | hb2
          · exact not_lt.mp hn
          · exact le_trans (not_lt.mp hn) (sorted_head_le hs hb2)
        have hfa : findAfter T (n0 :: tl) = none := findAfter_none_of hs (Or.inr hall)
        simp only [addInsert, hfa, if_neg hn]
        exact sorted_cons_of_forall hs (fun b hb => ht ▸ hall b hb)

/-- Arming a timer does not touch the task chain. -/
lemma waitForHead_head (s : Sched) : (waitForHead s).head = s.head := by
  obtain ⟨h, a, tr, tm, nt, lg⟩ := s
  cases h <;> rfl

/-- Cancelling a timer does not touch the task chain. -/
lemma cancelTimer_head (s : Sched) (tid : Nat) : (cancelTimer s tid).head = s.head := rfl

/-- A pause call with the default argument -1 only clears the active
flag: the duration branch is skipped, so no timer is cancelled and no
revert timer is constructed. -/
lemma pause_neg (s : Sched) (now : Int) (h : s.active ≠ .terminated) :
    pause s (-1) now = ({ s with active := .off }, none) := by
  unfold pause
  rw [if_neg h, if_neg (by norm_num : ¬ (0 : Int) ≤ -1)]

/-- A resume call with the default argument -1 sets the active flag and
arms a timer for the head; the duration branch is skipped. -/
lemma resume_neg (s : Sched) (now : Int) (h : s.active ≠ .terminated) :
    resume s (-1) now = (waitForHead { s with active := .on }, none) := by
  unfold resume
  rw [if_neg h, if_neg (by norm_num : ¬ (0 : Int) ≤ -1)]

/-- On a sorted chain, a new node with time strictly below the head's
time is linked in front of the head by the head-insert branch and
becomes self.head. -/
lemma addInsert_front {T : Int} {t e0 : Entry} {tl : List Entry}
    (hs : sortedByTime (e0 :: tl) = true) (hT : T < e0.time) :
    addInsert T t (e0 :: tl) = (t :: e0 :: tl, true) := by
  have hall : ∀ b ∈ e0 :: tl, T ≤ b.time := by
    intro b hb
    rcases List.mem_cons.mp hb with rfl | hb2
    · exact le_of_lt hT
    · exact le_trans (le_of_lt hT) (sorted_head_le hs hb2)
  have hfa : findAfter T (e0 :: tl) = none := findAfter_none_of hs (Or.inr hall)
  simp only [addInsert, hfa, if_neg (not_lt.mpr (le_of_lt hT))]

/-- On a sorted chain whose head time is strictly below the new time,
if the new time equals the time of some later node then neither
insertion branch fires: the walk falls off the end and the new node is
lost. -/
lemma addInsert_dup {T : Int} {t e0 : Entry} {tl : List Entry}
    (hs : sortedByTime (e0 :: tl) = true) (hT : e0.time < T)
    (hmem : ∃ e ∈ tl, e.time = T) :
    addInsert T t (e0 :: tl) = (e0 :: tl, false) := by
  obtain ⟨e, he, heT⟩ := hmem
  have hfa : findAfter T (e0 :: tl) = none :=
    findAfter_none_of hs (Or.inl ⟨e, List.mem_cons_of_mem e0 he, heT⟩)
  simp only [addInsert, hfa, if_pos hT]

/-- One add_task call preserves sortedness of the chain. -/
lemma add_task_head_sorted (s : Sched) (T : Int) (aid : Nat) (r : Bool)
    (hs : sortedByTime s.head = true) :
    sortedByTime ((add_task s T aid r).1).head = true := by
  unfold add_task
  by_cases hterm : s.active = .terminated
  · rw [if_pos hterm]; exact hs
  · rw [if_neg hterm]
    have hcore : sortedByTime (addInsert T ⟨T, aid, r⟩ s.head).1 = true :=
      addInsert_sorted rfl hs
    dsimp only
    split
    · split
      · split
        · rw [waitForHead_head, cancelTimer_head]; exact hcore
        · exact hcore
      · exact hcore
    · exact hcore

/-- C1 (counterexample): two add_task calls with the same time 5 from a
fresh scheduler leave the chain with the later-added entry (action
identifier 1) in front of the earlier-added one (action identifier 0):
equal dueAt entries do not preserve insertion order, refuting the
stable-FIFO half of the claim. -/
theorem C1_counterexample :
    ((add_task (add_task init 5 0 false).1 5 1 false).1).head =
      [⟨5, 1, false⟩, ⟨5, 0, false⟩] := by decide

/-- C1 (amended): after every sequence of add_task calls from a fresh
scheduler, the pending chain is sorted ascending by time; the stability
part of the original claim fails (see the counterexample: an entry with
time equal to the head's is linked in front of the head, and an entry
with time equal to a non-head node's is dropped). -/
theorem C1_pending_sorted_after_each_add (ops : List (Int × Nat)) :
    sortedByTime (runAdds init ops).head = true := by
  suffices h : ∀ s : Sched, sortedByTime s.head = true →
      sortedByTime (runAdds s ops).head = true from h init rfl
  induction ops with
  | nil => intro s hs; exact hs
  | cons op rest ih =>
      obtain ⟨T, aid⟩ := op
      intro s hs
      exact ih _ (add_task_head_sorted s T aid false hs)

/-- C2 (counterexample): add a task at time 5, resume (arming a timer
targeting 5), then pause with no duration. The state is no longer
Active, yet the due-task timer is still armed — refuting the claim that
no due-task timer is armed immediately after pause(). -/
theorem C2_counterexample :
    ((pause (resume (add_task init 5 0 false).1 (-1) 0).1 (-1) 1).1).active =
      ActiveFlag.off ∧
    ((pause (resume (add_task init 5 0 false).1 (-1) 0).1 (-1) 1).1).timers =
      [⟨0, .dueTask 0 false, 5, true, false, false⟩] ∧
    timerArmed ⟨0, .dueTask 0 false, 5, true, false, false⟩ = true := by decide

/-- C2 (amended): pause with no duration does not preserve the timer
invariant — it only clears the active flag and leaves every timer
exactly as it was, so an armed due-task timer stays armed while the
scheduler is no longer Active. -/
theorem C2_pause_cancels_nothing (s : Sched) (now : Int)
    (h : s.active ≠ .terminated) :
    pause s (-1) now = ({ s with active := .off }, none) :=
  pause_neg s now h

/-- C2 (witness): the amended pause equation evaluated on the concrete
armed scheduler of the counterexample scenario. -/
theorem C2_pause_cancels_nothing_witness :
    (resume (add_task init 5 0 false).1 (-1) 0).1.active ≠ ActiveFlag.terminated ∧
    pause (resume (add_task init 5 0 false).1 (-1) 0).1 (-1) 1 =
      ({ (resume (add_task init 5 0 false).1 (-1) 0).1 with active := .off }, none) :=
  ⟨by decide, C2_pause_cancels_nothing (resume (add_task init 5 0 false).1 (-1) 0).1 1
    (by decide)⟩

/-- C3 (counterexample): add a task at time 5, resume (arming its
timer), then terminate. The scheduler is Terminated with an empty chain,
but the armed timer was not cancelled, and when it fires the discarded
entry's action runs (action identifier 0 appears in the log) — refuting
the claim that no previously pending entry's action ever fires. -/
theorem C3_counterexample :
    (terminate (resume (add_task init 5 0 false).1 (-1) 0).1 1).1.active =
      ActiveFlag.terminated ∧
    (terminate (resume (add_task init 5 0 false).1 (-1) 0).1 1).1.head = [] ∧
    (fireTimer (terminate (resume (add_task init 5 0 false).1 (-1) 0).1 1).1 0 10).1.log =
      [0] := by decide

/-- C3 (amended): terminate on a non-terminated scheduler empties the
pending chain without running any entry and marks the scheduler
terminated, but it cancels nothing: the timers are left exactly as they
were, so an already-armed due-task timer remains armed and its captured
action can still fire later. -/
theorem C3_terminate_discards_but_cancels_nothing (s : Sched) (now : Int)
    (h : s.active ≠ .terminated) :
    (terminate s now).1.head = [] ∧
    (terminate s now).1.active = .terminated ∧
    (terminate s now).1.timers = s.timers ∧
    (terminate s now).1.log = s.log ∧
    (terminate s now).2 = none := by
  unfold terminate
  rw [if_neg h, pause_neg s now h]
  exact ⟨rfl, rfl, rfl, rfl, rfl⟩

/-- C3 (witness): the amended terminate description evaluated on the
concrete armed scheduler of the counterexample scenario. -/
theorem C3_terminate_discards_but_cancels_nothing_witness :
    (resume (add_task init 5 0 false).1 (-1) 0).1.active ≠ ActiveFlag.terminated ∧
    ((terminate (resume (add_task init 5 0 false).1 (-1) 0).1 1).1.head = [] ∧
     (terminate (resume (add_task init 5 0 false).1 (-1) 0).1 1).1.active = .terminated ∧
     (terminate (resume (add_task init 5 0 false).1 (-1) 0).1 1).1.timers =
       (resume (add_task init 5 0 false).1 (-1) 0).1.timers ∧
     (terminate (resume (add_task init 5 0 false).1 (-1) 0).1 1).1.log =
       (resume (add_task init 5 0 false).1 (-1) 0).1.log ∧
     (terminate (resume (add_task init 5 0 false).1 (-1) 0).1 1).2 = none) :=
  ⟨by decide, C3_terminate_discards_but_cancels_nothing
    (resume (add_task init 5 0 false).1 (-1) 0).1 1 (by decide)⟩

/-- The scheduler state reached by resuming a fresh scheduler (no tasks,
so no timer is armed) and then pausing it for 5 time units: the code
constructs the revert timer but never starts it. -/
def c5Paused : Sched := (pause (resume init (-1) 0).1 5 0).1

/-- C5: pause with a non-negative duration leaves the scheduler Paused
and constructs a revert timer whose started flag is false, because the
code never calls start() on the threading.Timer it builds; firing it is
impossible (the fire step is a no-op even long after the duration), so
the scheduler never returns to Active without an explicit call. This
evaluates the code at the failing input of the code_bug record. -/
theorem C5_revert_timer_never_started :
    c5Paused.active = ActiveFlag.off ∧
    c5Paused.timers = [⟨0, .revertResume, 5, false, false, false⟩] ∧
    fireTimer c5Paused 0 100 = (c5Paused, none) := by decide

/-- The double-fire scenario for claim C4: tasks at times 10 and 20,
resume at instant 0 (arming timer 0 for the head), pause with no
duration at instant 1 (cancelling nothing), resume with no duration at
instant 2 (arming a second timer 1 for the same head), then both timers
for the head fire in turn. -/
def c4Run : Sched :=
  (fireTimer (fireTimer (resume (pause (resume
    (add_task (add_task init 10 0 false).1 20 1 false).1
    (-1) 0).1 (-1) 1).1 (-1) 2).1 0 10).1 1 11).1

/-- C4 (counterexample): across a pause() / resume() round trip the
head entry's action (identifier 0) is invoked twice — once by the timer
armed before the pause, which pause never cancelled, and once by the
timer resume armed — and the entry at time 20 (identifier 1) is removed
from the chain without its action ever being invoked. This refutes the
claim that no entry's action is invoked or removed more than once. -/
theorem C4_counterexample :
    c4Run.log = [0, 0] ∧ c4Run.head = [] ∧ ¬ (1 ∈ c4Run.log) := by decide

/-- C4 (amended): pause() followed by resume() (both with no duration)
on a non-terminated scheduler leaves the pending chain unchanged and
the scheduler Active, but cancels nothing: every previously created
timer is left exactly as it was and, when the chain is nonempty, resume
arms one additional due-task timer for the head — so the head's action
can fire once per armed timer. -/
theorem C4_pause_resume_keeps_pending_but_double_arms (s : Sched) (now now2 : Int)
    (h : s.active ≠ .terminated) :
    (resume (pause s (-1) now).1 (-1) now2).1.head = s.head ∧
    (resume (pause s (-1) now).1 (-1) now2).1.active = .on ∧
    (resume (pause s (-1) now).1 (-1) now2).1.timers =
      s.timers ++ (match s.head with
        | [] => []
        | e :: _ => [⟨s.nextTid, .dueTask e.aid e.raisesExc, e.time, true, false, false⟩]) := by
  obtain ⟨hd, a, tr, tm, nt, lg⟩ := s
  rw [pause_neg _ now h, resume_neg _ now2 (by intro hx; exact ActiveFlag.noConfusion hx)]
  cases hd with
  | nil => exact ⟨rfl, rfl, by simp [waitForHead]⟩
  | cons e tl => exact ⟨rfl, rfl, rfl⟩

/-- C4 (witness): the amended round-trip description evaluated on a
concrete armed scheduler with one task at time 10. -/
theorem C4_pause_resume_keeps_pending_but_double_arms_witness :
    (resume (add_task init 10 0 false).1 (-1) 0).1.active ≠ ActiveFlag.terminated ∧
    ((resume (pause (resume (add_task init 10 0 false).1 (-1) 0).1 (-1) 1).1 (-1) 2).1.head =
       (resume (add_task init 10 0 false).1 (-1) 0).1.head ∧
     (resume (pause (resume (add_task init 10 0 false).1 (-1) 0).1 (-1) 1).1 (-1) 2).1.active =
       .on ∧
     (resume (pause (resume (add_task init 10 0 false).1 (-1) 0).1 (-1) 1).1 (-1) 2).1.timers =
       [⟨0, .dueTask 0 false, 10, true, false, false⟩,
        ⟨1, .dueTask 0 false, 10, true, false, false⟩]) :=
  ⟨by decide, C4_pause_resume_keeps_pending_but_double_arms
    (resume (add_task init 10 0 false).1 (-1) 0).1 1 2 (by decide)⟩

/-- A terminated scheduler, reached by terminating a fresh one. -/
def c6Term : Sched := (terminate init 0).1

/-- C6: once the active flag holds the terminated marker, every public
operation raises the terminated error from the guard that runs before
any mutation, and returns the state exactly as it was. -/
theorem C6_terminated_rejects_everything (s : Sched) (h : s.active = .terminated)
    (T now tl2 : Int) (aid : Nat) (r b : Bool) :
    add_task s T aid r = (s, some .terminated) ∧
    pause s tl2 now = (s, some .terminated) ∧
    resume s tl2 now = (s, some .terminated) ∧
    start s b now = (s, some .terminated) ∧
    terminate s now = (s, some .terminated) := by
  simp [add_task, pause, resume, start, terminate, h]

/-- C6 (witness): the rejection of all five operations evaluated on the
concrete terminated scheduler. -/
theorem C6_terminated_rejects_everything_witness :
    c6Term.active = ActiveFlag.terminated ∧
    (add_task c6Term 5 0 false = (c6Term, some .terminated) ∧
     pause c6Term 3 1 = (c6Term, some .terminated) ∧
     resume c6Term 3 1 = (c6Term, some .terminated) ∧
     start c6Term false 1 = (c6Term, some .terminated) ∧
     terminate c6Term 1 = (c6Term, some .terminated)) :=
  ⟨by decide, C6_terminated_rejects_everything c6Term (by decide) 5 1 3 0 false false⟩

/-- C7 (counterexample): resume a fresh scheduler (Active, chain empty,
self.timer is None), then add a task at time 5. The new entry becomes
the head of an Active scheduler, yet no timer is armed at all, because
the re-arm branch of add_task requires self.timer to already be
non-None — refuting the claim that a timer is armed also when none was
previously armed. -/
theorem C7_counterexample :
    (add_task (resume init (-1) 0).1 5 0 false).1.active = ActiveFlag.on ∧
    (add_task (resume init (-1) 0).1 5 0 false).1.head = [⟨5, 0, false⟩] ∧
    (add_task (resume init (-1) 0).1 5 0 false).1.timers = [] := by decide

/-- C7 (amended): on an Active scheduler holding a timer reference, an
add_task with time strictly below the head's time links the new entry
in front (it becomes pending[0]), cancels the referenced timer and arms
a fresh timer targeting the new entry's time; when no timer reference
is held, nothing is armed (see the counterexample). -/
theorem C7_add_earlier_rearms_only_with_existing_timer (s : Sched) (T : Int) (aid : Nat)
    (r : Bool) (e0 : Entry) (tl : List Entry) (tid : Nat)
    (hact : s.active = .on) (href : s.timerRef = some tid)
    (hhead : s.head = e0 :: tl) (hT : T < e0.time) (hs : sortedByTime s.head = true) :
    (add_task s T aid r).1.head = ⟨T, aid, r⟩ :: s.head ∧
    (add_task s T aid r).1.timers =
      s.timers.map (fun tm => if tm.tid = tid then { tm with cancelled := true } else tm)
        ++ [⟨s.nextTid, .dueTask aid r, T, true, false, false⟩] ∧
    (add_task s T aid r).1.timerRef = some s.nextTid ∧
    (add_task s T aid r).2 = none := by
  obtain ⟨hd, a, tr, tm, nt, lg⟩ := s
  dsimp only at hact href hhead hs ⊢
  subst hact href hhead
  have hins : addInsert T ⟨T, aid, r⟩ (e0 :: tl) = (⟨T, aid, r⟩ :: e0 :: tl, true) :=
    addInsert_front hs hT
  simp only [add_task, hins]
  exact ⟨rfl, rfl, rfl, rfl⟩

/-- The concrete armed Active scheduler used to witness claim C7. -/
def c7Armed : Sched := (resume (add_task init 10 0 false).1 (-1) 0).1

/-- C7 (witness): the amended re-arm description evaluated on a
concrete Active scheduler holding timer 0 for a task at time 10, when a
task at time 5 is added. -/
theorem C7_add_earlier_rearms_only_with_existing_timer_witness :
    (c7Armed.active = ActiveFlag.on ∧ c7Armed.timerRef = some 0 ∧
     c7Armed.head = ⟨10, 0, false⟩ :: [] ∧ (5 : Int) < (10 : Int) ∧
     sortedByTime c7Armed.head = true) ∧
    ((add_task c7Armed 5 1 false).1.head = ⟨5, 1, false⟩ :: c7Armed.head ∧
     (add_task c7Armed 5 1 false).1.timers =
       c7Armed.timers.map (fun tm => if tm.tid = 0 then { tm with cancelled := true } else tm)
         ++ [⟨c7Armed.nextTid, .dueTask 1 false, 5, true, false, false⟩] ∧
     (add_task c7Armed 5 1 false).1.timerRef = some c7Armed.nextTid ∧
     (add_task c7Armed 5 1 false).2 = none) :=
  ⟨⟨rfl, rfl, rfl, by decide, by decide⟩,
   C7_add_earlier_rearms_only_with_existing_timer c7Armed 5 1 false ⟨10, 0, false⟩ [] 0
     rfl rfl rfl (by decide) (by decide)⟩

/-- An armed Active scheduler whose head task's action raises, with a
second healthy task behind it. -/
def c8Two : Sched :=
  (resume (add_task (add_task init 5 0 true).1 10 1 false).1 (-1) 0).1

/-- C8 (counterexample): when the armed timer fires and the captured
action raises, the entry is NOT removed from the chain (the head is
unchanged), no new timer is armed for the next entry (the only timer
object is the fired one), and the exception simply propagates — the
schedule stalls, refuting the claim. -/
theorem C8_counterexample :
    (fireTimer c8Two 0 6).1.head = [⟨5, 0, true⟩, ⟨10, 1, false⟩] ∧
    (fireTimer c8Two 0 6).1.timers = [⟨0, .dueTask 0 true, 5, true, false, true⟩] ∧
    (fireTimer c8Two 0 6).2 = some (.actionRaised 0) := by decide

/-- C8 (amended): when an armed due-task timer fires and its captured
action raises, the wrapped closure has no exception handling: the
action is invoked (logged) and the exception propagates on the timer
thread, so the chain is left unchanged, no timer is created, the timer
reference is untouched, and no error sink exists — the entry is not
removed and the schedule does not advance. -/
theorem C8_raising_action_stalls_schedule (s : Sched) (tid aid : Nat) (now : Int)
    (tmr : Timer) (hfind : findTimer s tid = some tmr)
    (harm : timerArmed tmr = true) (hkind : tmr.kind = .dueTask aid true) :
    (fireTimer s tid now).1.head = s.head ∧
    (fireTimer s tid now).1.log = s.log ++ [aid] ∧
    (fireTimer s tid now).1.nextTid = s.nextTid ∧
    (fireTimer s tid now).1.timerRef = s.timerRef ∧
    (fireTimer s tid now).2 = some (.actionRaised aid) := by
  have key : fireTimer s tid now =
      ({ markFired s tid with log := (markFired s tid).log ++ [aid] },
        some (.actionRaised aid)) := by
    unfold fireTimer
    rw [hfind]
    dsimp only
    rw [if_pos harm, hkind]
    rfl
  rw [key]
  exact ⟨rfl, rfl, rfl, rfl, rfl⟩

/-- An armed Active scheduler with a single task whose action raises. -/
def c8Armed : Sched := (resume (add_task init 5 0 true).1 (-1) 0).1

/-- C8 (witness): the stalled-firing description evaluated on the
concrete armed scheduler whose task at time 5 raises. -/
theorem C8_raising_action_stalls_schedule_witness :
    (findTimer c8Armed 0 = some ⟨0, .dueTask 0 true, 5, true, false, false⟩ ∧
     timerArmed ⟨0, .dueTask 0 true, 5, true, false, false⟩ = true) ∧
    ((fireTimer c8Armed 0 6).1.head = c8Armed.head ∧
     (fireTimer c8Armed 0 6).1.log = c8Armed.log ++ [0] ∧
     (fireTimer c8Armed 0 6).1.nextTid = c8Armed.nextTid ∧
     (fireTimer c8Armed 0 6).1.timerRef = c8Armed.timerRef ∧
     (fireTimer c8Armed 0 6).2 = some (.actionRaised 0)) :=
  ⟨⟨by decide, by decide⟩,
   C8_raising_action_stalls_schedule c8Armed 0 0 6
     ⟨0, .dueTask 0 true, 5, true, false, false⟩ (by decide) (by decide) rfl⟩

/-- C9: on a non-terminated scheduler with a sorted chain, an add_task
whose time is strictly greater than the head's time and equal to the
time of some non-head node changes nothing at all: neither insertion
branch of the walk fires, the new node is silently dropped, no timer is
touched and no error is raised, so the task can never fire. -/
theorem C9_duplicate_nonhead_time_dropped (s : Sched) (T : Int) (aid : Nat) (r : Bool)
    (e0 : Entry) (tl : List Entry)
    (hterm : s.active ≠ .terminated) (hs : sortedByTime s.head = true)
    (hhead : s.head = e0 :: tl) (hT : e0.time < T) (hmem : ∃ e ∈ tl, e.time = T) :
    add_task s T aid r = (s, none) := by
  obtain ⟨hd, a, tr, tm, nt, lg⟩ := s
  dsimp only at hterm hs hhead
  subst hhead
  have hins : addInsert T ⟨T, aid, r⟩ (e0 :: tl) = (e0 :: tl, false) :=
    addInsert_dup hs hT hmem
  simp only [add_task, hins, if_neg hterm]
  rfl

/-- A scheduler with two tasks at times 5 and 10, used to witness
claim C9. -/
def c9Sorted : Sched := (add_task (add_task init 5 0 false).1 10 1 false).1

/-- C9 (witness): adding a third task at time 10 — equal to the
non-head entry's time — to the concrete two-task scheduler leaves it
completely unchanged. -/
theorem C9_duplicate_nonhead_time_dropped_witness :
    (c9Sorted.active ≠ ActiveFlag.terminated ∧ sortedByTime c9Sorted.head = true ∧
     c9Sorted.head = ⟨5, 0, false⟩ :: [⟨10, 1, false⟩] ∧ (5 : Int) < (10 : Int)) ∧
    add_task c9Sorted 10 2 false = (c9Sorted, none) :=
  ⟨⟨by decide, by decide, rfl, by decide⟩,
   C9_duplicate_nonhead_time_dropped c9Sorted 10 2 false ⟨5, 0, false⟩ [⟨10, 1, false⟩]
     (by decide) (by decide) rfl (by decide) ⟨⟨10, 1, false⟩, by decide, rfl⟩⟩

/-- C10: start() with the default auto_stop = False first resumes (the
scheduler becomes Active) and then evaluates dt.date.now(), which
raises AttributeError because datetime.date has no now classmethod; the
keepalive entry is never inserted. This evaluates the code at the
failing input of the code_bug record. -/
theorem C10_start_raises_attribute_error :
    start init false 0 = ({ init with active := .on }, some Err.dateNow) := by decide

end Stroll
